import Mathlib

/-!
Shallow embedding of the opacore ledger-settlement and tax-lot accounting
engine (crates/opacore-server/src/services/costbasis.rs, tax.rs) and of the
invoice payment watcher (services/invoice_checker.rs, routes/invoices.rs).

Modelling conventions:
* `i64` amounts become `Int`; wrapping casts (`as u64`, `as i64`) are made
  explicit (`i64ToU64`, `u64ToI64`).
* `f64` USD prices become `ℚ` (exact arithmetic idealisation of IEEE doubles;
  the literal `1e8` is the exact integer 100000000 in f64, and `round` on f64
  rounds half away from zero, which `roundHalfAway` mirrors).
* Timestamps stay `String`, as in the Rust code; `days_between` mirrors the
  chrono-based date parsing (strict `YYYY-MM-DD` prefix, proleptic Gregorian
  day count) assuming ASCII date strings.
* The SQLite rows `(tx_type, amount_sat, price_usd, transacted_at)` read by
  `calculate_cost_basis` (ordered by `transacted_at`) become a `List
  LedgerEntry` input; the invoice row touched by the conditional UPDATE
  becomes an `InvoiceRow` value.
-/

/-! ## Date handling (chrono `NaiveDate` parse + day difference) -/

/-- All-digit parse of a character list to a number, `none` when empty or a
non-digit occurs (the digit part of Rust's `str::parse::<i32>`). -/
def parseNatDigits (cs : List Char) : Option Nat :=
  if cs.isEmpty then none
  else if cs.all Char.isDigit then
    some (cs.foldl (fun a c => a * 10 + (c.toNat - 48)) 0)
  else none

/-- Rust `str::parse::<i32>`: optional sign, then digits (overflow cannot
occur for the at-most-4-character year prefixes this program parses). -/
def parseI32 (s : String) : Option Int :=
  match s.data with
  | [] => none
  | '+' :: rest => (parseNatDigits rest).map (fun n => (n : Int))
  | '-' :: rest => (parseNatDigits rest).map (fun n => -(n : Int))
  | cs => (parseNatDigits cs).map (fun n => (n : Int))

/-- `date.get(..4).and_then(|y| y.parse::<i32>().ok())` from
`calculate_cost_basis`: the year prefix of a disposal date. -/
def sellYearOf (date : String) : Option Int :=
  if 4 ≤ date.length then parseI32 (date.take 4) else none

def isLeapYear (y : Int) : Bool :=
  y % 4 == 0 && (y % 100 != 0 || y % 400 == 0)

def daysInMonth (y m : Int) : Int :=
  if m = 2 then (if isLeapYear y then 29 else 28)
  else if m = 4 ∨ m = 6 ∨ m = 9 ∨ m = 11 then 30
  else 31

/-- chrono `NaiveDate::parse_from_str(s, "%Y-%m-%d")` on an ASCII string:
exactly `YYYY-MM-DD` with a calendar-valid month and day. -/
def parseNaiveDate (s : String) : Option (Int × Int × Int) :=
  match s.data with
  | [y1, y2, y3, y4, '-', m1, m2, '-', d1, d2] =>
    match parseNatDigits [y1, y2, y3, y4], parseNatDigits [m1, m2],
        parseNatDigits [d1, d2] with
    | some y, some m, some d =>
      if 1 ≤ (m : Int) ∧ (m : Int) ≤ 12 ∧ 1 ≤ (d : Int) ∧
          (d : Int) ≤ daysInMonth (y : Int) (m : Int) then
        some ((y : Int), (m : Int), (d : Int))
      else none
    | _, _, _ => none
  | _ => none

/-- Days since 1970-01-01 of a civil date (proleptic Gregorian), the day
number underlying chrono's `NaiveDate` subtraction. -/
def daysFromCivil (y m d : Int) : Int :=
  let y2 := if m ≤ 2 then y - 1 else y
  let era := (if 0 ≤ y2 then y2 else y2 - 399) / 400
  let yoe := y2 - era * 400
  let mp := (m + 9) % 12
  let doy := (153 * mp + 2) / 5 + d - 1
  let doe := yoe * 365 + yoe / 4 - yoe / 100 + doy
  era * 146097 + doe - 719468

/-- The date prefix taken by `days_between` (`&s[..s.len().min(10)]`),
then parsed as `%Y-%m-%d`. -/
def dateOf (s : String) : Option (Int × Int × Int) :=
  parseNaiveDate (s.take 10)

/-- `days_between` from costbasis.rs: difference in whole days between two
date strings, `0` when either fails to parse. -/
def days_between (start e : String) : Int :=
  match dateOf start, dateOf e with
  | some (ys, ms, ds), some (ye, me, de) =>
    daysFromCivil ye me de - daysFromCivil ys ms ds
  | _, _ => 0

/-! ## Cost basis engine (services/costbasis.rs) -/

inductive CostBasisMethod
  | fifo
  | lifo
  | hifo
deriving DecidableEq

/-- `struct Lot` from costbasis.rs. -/
structure Lot where
  amount_sat : Int
  price_usd : ℚ
  date : String
deriving DecidableEq

/-- `struct GainLoss` from costbasis.rs. -/
structure GainLoss where
  sell_date : String
  sell_amount_sat : Int
  sell_price_usd : ℚ
  cost_basis_usd : ℚ
  proceeds_usd : ℚ
  gain_usd : ℚ
  is_long_term : Bool
  holding_period_days : Int
deriving DecidableEq

/-- A row of the `transactions` query in `calculate_cost_basis`:
`(tx_type, amount_sat, price_usd, transacted_at)`, already ordered by
`transacted_at ASC`. -/
structure LedgerEntry where
  tx_type : String
  amount_sat : Int
  price_usd : Option ℚ
  date : String
deriving DecidableEq

/-- `struct CostBasisResult` from costbasis.rs. -/
structure CostBasisResult where
  method : String
  gains : List GainLoss
  total_realized_gain_usd : ℚ
  total_short_term_gain_usd : ℚ
  total_long_term_gain_usd : ℚ
  remaining_lots : Nat
  remaining_balance_sat : Int
  remaining_cost_basis_usd : ℚ
deriving DecidableEq

/-- `fn sort_lots`: FIFO keeps the working list, LIFO reverses it in place,
HIFO stable-sorts by descending price (the `partial_cmp ... unwrap_or(Equal)`
comparator is total on the exact rationals modelling the f64 prices). -/
def sort_lots (lots : List Lot) : CostBasisMethod → List Lot
  | .fifo => lots
  | .lifo => lots.reverse
  | .hifo => lots.mergeSort (fun a b => decide (b.price_usd ≤ a.price_usd))

/-- The `while remaining > 0 && !lots.is_empty()` depletion loop of
`calculate_cost_basis`: returns the list of `(disposed, source lot)` chunks
in consumption order together with the surviving lot list. -/
def depleteLots (remaining : Int) : List Lot → List (Int × Lot) × List Lot
  | [] => ([], [])
  | lot :: rest =>
    if remaining ≤ 0 then ([], lot :: rest)
    else
      let disposed := min remaining lot.amount_sat
      if lot.amount_sat - disposed = 0 then
        let r := depleteLots (remaining - disposed) rest
        ((disposed, lot) :: r.1, r.2)
      else
        ([(disposed, lot)], { lot with amount_sat := lot.amount_sat - disposed } :: rest)

/-- The `GainLoss` record built for one depletion-loop iteration. -/
def chunkToGainLoss (sell_price : ℚ) (date : String) (c : Int × Lot) : GainLoss :=
  let cost_basis := ((c.1 : ℚ) / 100000000) * c.2.price_usd
  let proceeds := ((c.1 : ℚ) / 100000000) * sell_price
  { sell_date := date
    sell_amount_sat := c.1
    sell_price_usd := sell_price
    cost_basis_usd := cost_basis
    proceeds_usd := proceeds
    gain_usd := proceeds - cost_basis
    is_long_term := 365 < days_between c.2.date date
    holding_period_days := days_between c.2.date date }

/-- The per-iteration tax-year filter condition
`tax_year.map(|ty| sell_year == Some(ty)).unwrap_or(true)`. -/
def include_record (tax_year : Option Int) (date : String) : Bool :=
  match tax_year with
  | none => true
  | some ty => sellYearOf date == some ty

/-- Working state of `calculate_cost_basis`: the mutable `lots` and `gains`
vectors. -/
structure CalcState where
  lots : List Lot
  gains : List GainLoss
deriving DecidableEq

/-- One iteration of the `for (tx_type, amount_sat, price_usd, date) in &txs`
loop of `calculate_cost_basis`. The tax-year check sits inside the depletion
loop in the Rust code but depends only on the (per-event) date, so it gates
the whole chunk list of the event. -/
def processEntry (method : CostBasisMethod) (tax_year : Option Int)
    (st : CalcState) (e : LedgerEntry) : CalcState :=
  let price := e.price_usd.getD 0
  if e.tx_type = "buy" ∨ e.tx_type = "receive" then
    { st with lots := st.lots ++ [{ amount_sat := e.amount_sat, price_usd := price, date := e.date }] }
  else if e.tx_type = "sell" ∨ e.tx_type = "send" then
    let sorted := sort_lots st.lots method
    let r := depleteLots e.amount_sat sorted
    { lots := r.2
      gains := st.gains ++
        (if include_record tax_year e.date then r.1.map (chunkToGainLoss price e.date) else []) }
  else st

/-- The whole transaction loop of `calculate_cost_basis`, from the empty
working state. -/
def processLedger (method : CostBasisMethod) (tax_year : Option Int)
    (txs : List LedgerEntry) : CalcState :=
  txs.foldl (processEntry method tax_year) ⟨[], []⟩

def methodName : CostBasisMethod → String
  | .fifo => "fifo"
  | .lifo => "lifo"
  | .hifo => "hifo"

/-- `fn calculate_cost_basis` (pure part: the DB read becomes the `txs`
argument; the function has no failure path after the rows are fetched). -/
def calculate_cost_basis (method : CostBasisMethod) (tax_year : Option Int)
    (txs : List LedgerEntry) : CostBasisResult :=
  let st := processLedger method tax_year txs
  { method := methodName method
    gains := st.gains
    total_realized_gain_usd := (st.gains.map (fun g => g.gain_usd)).sum
    total_short_term_gain_usd :=
      ((st.gains.filter (fun g => !g.is_long_term)).map (fun g => g.gain_usd)).sum
    total_long_term_gain_usd :=
      ((st.gains.filter (fun g => g.is_long_term)).map (fun g => g.gain_usd)).sum
    remaining_lots := st.lots.length
    remaining_balance_sat := (st.lots.map (fun l => l.amount_sat)).sum
    remaining_cost_basis_usd :=
      (st.lots.map (fun l => ((l.amount_sat : ℚ) / 100000000) * l.price_usd)).sum }

/-! ## Tax report and Form 8949 export (services/tax.rs) -/

/-- Rust `f64::round`: nearest integer, ties away from zero. -/
def roundHalfAway (q : ℚ) : Int :=
  if 0 ≤ q then ⌊q + 1/2⌋ else -⌊-q + 1/2⌋

/-- `fn round2`: `(v * 100.0).round() / 100.0`. -/
def round2 (v : ℚ) : ℚ :=
  ((roundHalfAway (v * 100) : ℚ)) / 100

def padZeros8 (n : Nat) : String :=
  let s := toString n
  String.mk (List.replicate (8 - s.length) '0') ++ s

/-- `format!("{:.8} BTC", sat as f64 / 1e8)` for the satoshi amounts this
program produces (exactly representable in f64). -/
def formatBtc8 (sat : Int) : String :=
  (if sat < 0 then "-" else "") ++ toString (sat.natAbs / 100000000) ++ "." ++
    padZeros8 (sat.natAbs % 100000000) ++ " BTC"

/-- `struct TaxDisposition` from tax.rs. -/
structure TaxDisposition where
  description : String
  date_acquired : String
  date_sold : String
  proceeds : ℚ
  cost_basis : ℚ
  gain_or_loss : ℚ
  holding_period : String
  holding_days : Int
deriving DecidableEq

/-- `struct TaxReport` from tax.rs. -/
structure TaxReport where
  year : Int
  method : String
  short_term_gains : ℚ
  long_term_gains : ℚ
  total_gains : ℚ
  total_proceeds : ℚ
  total_cost_basis : ℚ
  disposition_count : Nat
  dispositions : List TaxDisposition
deriving DecidableEq

/-- The per-gain mapping inside `generate_tax_report`. -/
def toDisposition (g : GainLoss) : TaxDisposition :=
  { description := formatBtc8 g.sell_amount_sat
    date_acquired := "Various"
    date_sold := g.sell_date.take 10
    proceeds := round2 g.proceeds_usd
    cost_basis := round2 g.cost_basis_usd
    gain_or_loss := round2 g.gain_usd
    holding_period := if g.is_long_term then "Long-term" else "Short-term"
    holding_days := g.holding_period_days }

/-- `fn generate_tax_report`. Note: `total_proceeds` and `total_cost_basis`
sum the already-rounded per-disposition figures, while `total_gains` rounds
the sum of the unrounded per-chunk gains. -/
def generate_tax_report (year : Int) (method : CostBasisMethod)
    (txs : List LedgerEntry) : TaxReport :=
  let result := calculate_cost_basis method (some year) txs
  let dispositions := result.gains.map toDisposition
  { year := year
    method := methodName method
    short_term_gains := round2 result.total_short_term_gain_usd
    long_term_gains := round2 result.total_long_term_gain_usd
    total_gains := round2 result.total_realized_gain_usd
    total_proceeds := round2 ((dispositions.map (fun d => d.proceeds)).sum)
    total_cost_basis := round2 ((dispositions.map (fun d => d.cost_basis)).sum)
    disposition_count := dispositions.length
    dispositions := dispositions }

/-- The numeric content of the CSV written by `generate_form_8949_csv`: one
row of (already `round2`-ed) figures per disposition, then the TOTALS row.
The writer prints each figure with `format!("{:.2}", _)`, which is injective
on multiples of 1/100, so equality of figures at two decimal places is
equality of these rationals. -/
structure Form8949 where
  rows : List TaxDisposition
  totals_proceeds : ℚ
  totals_cost_basis : ℚ
  totals_gain : ℚ
deriving DecidableEq

/-- `fn generate_form_8949_csv`, restricted to the figures it prints. -/
def generate_form_8949 (year : Int) (method : CostBasisMethod)
    (txs : List LedgerEntry) : Form8949 :=
  let report := generate_tax_report year method txs
  { rows := report.dispositions
    totals_proceeds := report.total_proceeds
    totals_cost_basis := report.total_cost_basis
    totals_gain := report.total_gains }

/-! ## Invoice payment watcher (services/invoice_checker.rs and the
`check_payment` route of routes/invoices.rs) -/

/-- `struct EsploraVout`. -/
structure EsploraVout where
  scriptpubkey_address : Option String
  value : Nat
deriving DecidableEq

/-- `struct EsploraTxStatus`. The `confirmed` and `block_time` fields are
deserialized by the Rust code. -/
structure EsploraTxStatus where
  confirmed : Bool
  block_time : Option Nat
deriving DecidableEq

/-- `struct EsploraTx`. -/
structure EsploraTx where
  txid : String
  status : EsploraTxStatus
  vout : List EsploraVout
deriving DecidableEq

/-- The invoice row as read/written by the checker and the check-payment
route (the columns it touches). -/
structure InvoiceRow where
  id : String
  status : String
  reusable : Bool
  btc_address : String
  amount_sat : Int
  paid_at : Option String
  paid_txid : Option String
  paid_amount_sat : Option Int
  updated_at : String
deriving DecidableEq

/-- Rust `as u64` on an `i64` value (two's-complement wrap). -/
def i64ToU64 (n : Int) : Nat :=
  (n % (2 ^ 64)).toNat

/-- Rust `as i64` on a `u64` value (two's-complement wrap). -/
def u64ToI64 (n : Nat) : Int :=
  let m := (n : Int) % 2 ^ 64
  if m < 2 ^ 63 then m else m - 2 ^ 64

/-- The Esplora response as seen by `check_invoice_payment` after the HTTP
call: a parsed transaction list, a non-success HTTP status, or a body that
fails to parse. -/
inductive EsploraResponse
  | ok (txs : List EsploraTx)
  | httpError (code : Nat) (body : String)
  | parseFail (msg : String)
deriving DecidableEq

/-- `tx.vout.iter().filter(|v| v.scriptpubkey_address.as_deref() ==
Some(btc_address)).map(|v| v.value).sum()`. -/
def receivedBy (addr : String) (tx : EsploraTx) : Nat :=
  ((tx.vout.filter (fun v => v.scriptpubkey_address == some addr)).map
    (fun v => v.value)).sum

/-- The `for tx in &txs` scan: the first transaction whose outputs to the
invoice address sum to at least the (wrapped) expected amount. -/
def findPayment (addr : String) (amountU : Nat) (txs : List EsploraTx) : Option EsploraTx :=
  txs.find? (fun tx => decide (amountU ≤ receivedBy addr tx))

/-- The conditional UPDATE
`SET status = 'paid', paid_at, paid_txid, paid_amount_sat, updated_at
 WHERE id = ?5 AND status != 'paid'`
on the row of the checked invoice. -/
def applyPaidUpdate (inv : InvoiceRow) (now txid : String) (received : Nat) : InvoiceRow :=
  if inv.status ≠ "paid" then
    { inv with
      status := "paid"
      paid_at := some now
      paid_txid := some txid
      paid_amount_sat := some (u64ToI64 received)
      updated_at := now }
  else inv

/-- `fn check_invoice_payment`: HTTP failure is logged and treated as "no
payment" (`Ok(false)`), a parse failure is an `Err`, and otherwise the first
qualifying transaction triggers the conditional update and `Ok(true)`.
Returns the detection flag together with the stored row after the call. -/
def check_invoice_payment (btc_address : String) (amount_sat : Int)
    (inv : InvoiceRow) (resp : EsploraResponse) (now : String) :
    Except String (Bool × InvoiceRow) :=
  match resp with
  | .httpError _ _ => .ok (false, inv)
  | .parseFail e => .error ("Esplora parse failed: " ++ e)
  | .ok txs =>
    match findPayment btc_address (i64ToU64 amount_sat) txs with
    | some tx => .ok (true, applyPaidUpdate inv now tx.txid (receivedBy btc_address tx))
    | none => .ok (false, inv)

/-- Outcome of the check-payment route: the invoice row it leaves stored (and
returns), whether the chain was queried at all, and whether a payment update
was detected. -/
structure CheckPaymentOutcome where
  invoice : InvoiceRow
  chainQueried : Bool
  detected : Bool
deriving DecidableEq

/-- The `check_payment` route handler (routes/invoices.rs): a paid,
non-reusable invoice is returned unchanged before any chain query; otherwise
`check_invoice_payment` runs against the invoice's address and amount. -/
def check_payment (inv : InvoiceRow) (resp : EsploraResponse) (now : String) :
    Except String CheckPaymentOutcome :=
  if inv.status = "paid" ∧ inv.reusable = false then
    .ok { invoice := inv, chainQueried := false, detected := false }
  else
    match check_invoice_payment inv.btc_address inv.amount_sat inv resp now with
    | .error e => .error e
    | .ok (updated, inv2) =>
      .ok { invoice := if updated then inv2 else inv, chainQueried := true, detected := updated }

/-! ## Helper quantities and unfolding lemmas for the cost-basis engine -/

/-- Total satoshis remaining across a lot working set. -/
def lotsTotal (lots : List Lot) : Int :=
  (lots.map (fun l => l.amount_sat)).sum

/-- Total satoshis of a depletion chunk list. -/
def chunksTotal (cs : List (Int × Lot)) : Int :=
  (cs.map (fun c => c.1)).sum

/-- Total satoshis disposed across emitted gain records. -/
def disposedTotal (gs : List GainLoss) : Int :=
  (gs.map (fun g => g.sell_amount_sat)).sum

/-- Total satoshis acquired (buy/receive entries) in a ledger slice. -/
def acquiredTotal (l : List LedgerEntry) : Int :=
  ((l.filter (fun e => decide (e.tx_type = "buy" ∨ e.tx_type = "receive"))).map
    (fun e => e.amount_sat)).sum

theorem processEntry_acq (m : CostBasisMethod) (ty : Option Int) (st : CalcState)
    (e : LedgerEntry) (h : e.tx_type = "buy" ∨ e.tx_type = "receive") :
    processEntry m ty st e =
      { st with lots := st.lots ++ [{ amount_sat := e.amount_sat, price_usd := e.price_usd.getD 0, date := e.date }] } := by
  simp only [processEntry, if_pos h]

theorem processEntry_disp (m : CostBasisMethod) (ty : Option Int) (st : CalcState)
    (e : LedgerEntry) (h1 : ¬(e.tx_type = "buy" ∨ e.tx_type = "receive"))
    (h2 : e.tx_type = "sell" ∨ e.tx_type = "send") :
    processEntry m ty st e =
      { lots := (depleteLots e.amount_sat (sort_lots st.lots m)).2
        gains := st.gains ++
          (if include_record ty e.date then
            ((depleteLots e.amount_sat (sort_lots st.lots m)).1).map
              (chunkToGainLoss (e.price_usd.getD 0) e.date)
          else []) } := by
  simp only [processEntry, if_neg h1, if_pos h2]

theorem processEntry_other (m : CostBasisMethod) (ty : Option Int) (st : CalcState)
    (e : LedgerEntry) (h1 : ¬(e.tx_type = "buy" ∨ e.tx_type = "receive"))
    (h2 : ¬(e.tx_type = "sell" ∨ e.tx_type = "send")) :
    processEntry m ty st e = st := by
  simp only [processEntry, if_neg h1, if_neg h2]

theorem lotsTotal_sort (lots : List Lot) (m : CostBasisMethod) :
    lotsTotal (sort_lots lots m) = lotsTotal lots := by
  cases m with
  | fifo => rfl
  | lifo => simp [sort_lots, lotsTotal, List.sum_reverse]
  | hifo =>
    exact ((List.mergeSort_perm lots (fun a b => decide (b.price_usd ≤ a.price_usd))).map
      (fun l => l.amount_sat)).sum_eq

/-- Conservation through one depletion loop: chunks plus survivors account
for exactly the lots that were there. -/
theorem depleteLots_total (r : Int) (lots : List Lot) :
    chunksTotal (depleteLots r lots).1 + lotsTotal (depleteLots r lots).2 = lotsTotal lots := by
  induction lots generalizing r with
  | nil => simp [depleteLots, chunksTotal, lotsTotal]
  | cons lot rest ih =>
    by_cases h : r ≤ 0
    · simp [depleteLots, if_pos h, chunksTotal, lotsTotal]
    · by_cases h2 : lot.amount_sat - min r lot.amount_sat = 0
      · have hrec := ih (r - min r lot.amount_sat)
        simp only [depleteLots, if_neg h, if_pos h2, chunksTotal, lotsTotal, List.map_cons,
          List.sum_cons] at hrec ⊢
        omega
      · simp only [depleteLots, if_neg h, if_neg h2, chunksTotal, lotsTotal, List.map_cons,
          List.map_nil, List.sum_cons, List.sum_nil]
        omega

theorem disposedTotal_append (a b : List GainLoss) :
    disposedTotal (a ++ b) = disposedTotal a + disposedTotal b := by
  simp [disposedTotal]

theorem disposedTotal_chunks (p : ℚ) (d : String) (cs : List (Int × Lot)) :
    disposedTotal (cs.map (chunkToGainLoss p d)) = chunksTotal cs := by
  induction cs with
  | nil => rfl
  | cons c rest ih =>
    simp only [List.map_cons, disposedTotal, chunksTotal, List.sum_cons] at ih ⊢
    simp only [chunkToGainLoss]
    omega

/-- Conservation invariant for a full unfiltered run from any starting
state: remaining satoshis plus disposed satoshis grow exactly by the
acquired satoshis of the processed slice. -/
theorem processLedger_total (m : CostBasisMethod) (l : List LedgerEntry) :
    ∀ st : CalcState,
    lotsTotal (List.foldl (processEntry m none) st l).lots +
        disposedTotal (List.foldl (processEntry m none) st l).gains
      = lotsTotal st.lots + disposedTotal st.gains + acquiredTotal l := by
  induction l with
  | nil => intro st; simp [acquiredTotal]
  | cons e rest ih =>
    intro st
    rw [List.foldl_cons, ih]
    by_cases h1 : e.tx_type = "buy" ∨ e.tx_type = "receive"
    · rw [processEntry_acq m none st e h1]
      simp [acquiredTotal, lotsTotal, List.filter_cons, h1]
      ring
    · by_cases h2 : e.tx_type = "sell" ∨ e.tx_type = "send"
      · rw [processEntry_disp m none st e h1 h2]
        simp only [include_record, if_pos]
        have hd := depleteLots_total e.amount_sat (sort_lots st.lots m)
        rw [lotsTotal_sort] at hd
        simp only [disposedTotal_append, disposedTotal_chunks]
        simp [acquiredTotal, List.filter_cons, h1]
        omega
      · rw [processEntry_other m none st e h1 h2]
        simp [acquiredTotal, List.filter_cons, h1]

/-! ## Claim C1: satoshi conservation -/

/-- Claim C1: for every portfolio ledger (time-ordered buy/receive/sell/send/
transfer entries with positive satoshi amounts) and every prefix processed by
calculate_cost_basis, the satoshis remaining across the working lot set plus
the satoshis disposed so far equal the satoshis acquired so far; in
particular the full run's remaining_balance_sat plus its disposed total equal
the total acquired. -/
theorem cost_basis_conservation (method : CostBasisMethod)
    (ledger l1 l2 : List LedgerEntry)
    (hpos : ∀ e ∈ ledger, 0 < e.amount_sat) (hsplit : ledger = l1 ++ l2) :
    (lotsTotal (processLedger method none l1).lots +
        disposedTotal (processLedger method none l1).gains = acquiredTotal l1) ∧
    ((calculate_cost_basis method none ledger).remaining_balance_sat +
        disposedTotal (calculate_cost_basis method none ledger).gains = acquiredTotal ledger) := by
  constructor
  · have h := processLedger_total method l1 ⟨[], []⟩
    simpa [processLedger, lotsTotal, disposedTotal] using h
  · have h := processLedger_total method ledger ⟨[], []⟩
    simpa [calculate_cost_basis, processLedger, lotsTotal, disposedTotal] using h

theorem cost_basis_conservation_witness :
    (lotsTotal (processLedger .fifo none
          [{ tx_type := "buy", amount_sat := 100, price_usd := some 10, date := "2024-01-01" },
           { tx_type := "sell", amount_sat := 30, price_usd := some 20, date := "2024-06-01" }]).lots +
        disposedTotal (processLedger .fifo none
          [{ tx_type := "buy", amount_sat := 100, price_usd := some 10, date := "2024-01-01" },
           { tx_type := "sell", amount_sat := 30, price_usd := some 20, date := "2024-06-01" }]).gains
      = acquiredTotal
          [{ tx_type := "buy", amount_sat := 100, price_usd := some 10, date := "2024-01-01" },
           { tx_type := "sell", amount_sat := 30, price_usd := some 20, date := "2024-06-01" }]) ∧
    ((calculate_cost_basis .fifo none
          [{ tx_type := "buy", amount_sat := 100, price_usd := some 10, date := "2024-01-01" },
           { tx_type := "sell", amount_sat := 30, price_usd := some 20, date := "2024-06-01" }]).remaining_balance_sat +
        disposedTotal (calculate_cost_basis .fifo none
          [{ tx_type := "buy", amount_sat := 100, price_usd := some 10, date := "2024-01-01" },
           { tx_type := "sell", amount_sat := 30, price_usd := some 20, date := "2024-06-01" }]).gains
      = acquiredTotal
          [{ tx_type := "buy", amount_sat := 100, price_usd := some 10, date := "2024-01-01" },
           { tx_type := "sell", amount_sat := 30, price_usd := some 20, date := "2024-06-01" }]) :=
  cost_basis_conservation .fifo
    [{ tx_type := "buy", amount_sat := 100, price_usd := some 10, date := "2024-01-01" },
     { tx_type := "sell", amount_sat := 30, price_usd := some 20, date := "2024-06-01" }]
    [{ tx_type := "buy", amount_sat := 100, price_usd := some 10, date := "2024-01-01" },
     { tx_type := "sell", amount_sat := 30, price_usd := some 20, date := "2024-06-01" }]
    [] (by decide) rfl

/-! ## Claim C2: LIFO consumption order -/

/-- The failing input for the LIFO ordering claim: two acquisitions, a
partial disposal, then a second disposal. -/
def lifoLedger : List LedgerEntry :=
  [{ tx_type := "buy", amount_sat := 100, price_usd := some 10, date := "2024-01-01" },
   { tx_type := "buy", amount_sat := 100, price_usd := some 20, date := "2024-02-01" },
   { tx_type := "sell", amount_sat := 50, price_usd := some 30, date := "2024-03-01" },
   { tx_type := "sell", amount_sat := 100, price_usd := some 30, date := "2024-04-01" }]

/-- Claim C2 (code bug, evaluated at the failing input): under LIFO, before
the second disposal the
open lots are the newer 2024-02-01 lot (50 sat left, price 20) and the older
2024-01-01 lot (100 sat, price 10) — yet the second disposal's depletion
consumes the 100 sat entirely from the OLDEST (2024-01-01) lot and leaves
the newer lot open, because sort_lots reverses the already-reversed working
list back into oldest-first order. LIFO would have to consume the newest
open lot (2024-02-01) first. -/
theorem lifo_second_disposal_consumes_oldest :
    (processLedger .lifo none (lifoLedger.take 3)).lots =
        [{ amount_sat := 50, price_usd := 20, date := "2024-02-01" },
         { amount_sat := 100, price_usd := 10, date := "2024-01-01" }] ∧
    (depleteLots 100 (sort_lots (processLedger .lifo none (lifoLedger.take 3)).lots .lifo)).1 =
        [(100, { amount_sat := 100, price_usd := 10, date := "2024-01-01" })] ∧
    (processLedger .lifo none lifoLedger).lots =
        [{ amount_sat := 50, price_usd := 20, date := "2024-02-01" }] := by
  decide

/-! ## Claim C5: tax-year filter is report-only -/

theorem foldl_lots_irrel (m : CostBasisMethod) (ty ty' : Option Int) (l : List LedgerEntry) :
    ∀ (lots : List Lot) (g g' : List GainLoss),
    (List.foldl (processEntry m ty) ⟨lots, g⟩ l).lots =
      (List.foldl (processEntry m ty') ⟨lots, g'⟩ l).lots := by
  induction l with
  | nil => intro lots g g'; rfl
  | cons e rest ih =>
    intro lots g g'
    rw [List.foldl_cons, List.foldl_cons]
    by_cases h1 : e.tx_type = "buy" ∨ e.tx_type = "receive"
    · rw [processEntry_acq m ty _ e h1, processEntry_acq m ty' _ e h1]
      exact ih _ _ _
    · by_cases h2 : e.tx_type = "sell" ∨ e.tx_type = "send"
      · rw [processEntry_disp m ty _ e h1 h2, processEntry_disp m ty' _ e h1 h2]
        exact ih _ _ _
      · rw [processEntry_other m ty _ e h1 h2, processEntry_other m ty' _ e h1 h2]
        exact ih _ _ _

theorem foldl_gains_accum (m : CostBasisMethod) (ty : Option Int) (l : List LedgerEntry) :
    ∀ (lots : List Lot) (g : List GainLoss),
    (List.foldl (processEntry m ty) ⟨lots, g⟩ l).gains =
      g ++ (List.foldl (processEntry m ty) ⟨lots, []⟩ l).gains := by
  induction l with
  | nil => intro lots g; simp
  | cons e rest ih =>
    intro lots g
    rw [List.foldl_cons, List.foldl_cons]
    by_cases h1 : e.tx_type = "buy" ∨ e.tx_type = "receive"
    · rw [processEntry_acq m ty _ e h1, processEntry_acq m ty _ e h1]
      exact ih _ _
    · by_cases h2 : e.tx_type = "sell" ∨ e.tx_type = "send"
      · rw [processEntry_disp m ty _ e h1 h2, processEntry_disp m ty _ e h1 h2]
        dsimp only
        generalize (depleteLots e.amount_sat (sort_lots lots m)).2 = L
        generalize (if include_record ty e.date = true then
          List.map (chunkToGainLoss (e.price_usd.getD 0) e.date)
            (depleteLots e.amount_sat (sort_lots lots m)).1 else []) = ng
        rw [ih L (g ++ ng), ih L ([] ++ ng)]
        simp
      · rw [processEntry_other m ty _ e h1 h2, processEntry_other m ty _ e h1 h2]
        exact ih _ _

theorem filter_map_of_const {α : Type} (p : GainLoss → Bool) (f : α → GainLoss) (b : Bool)
    (hf : ∀ a, p (f a) = b) (cs : List α) :
    (cs.map f).filter p = if b then cs.map f else [] := by
  induction cs with
  | nil => cases b <;> simp
  | cons c rest ih =>
    cases b <;> simp [List.filter_cons, hf c, ih]

theorem foldl_gains_filter (m : CostBasisMethod) (y : Int) (l : List LedgerEntry) :
    ∀ lots : List Lot,
    (List.foldl (processEntry m (some y)) ⟨lots, []⟩ l).gains =
      ((List.foldl (processEntry m none) ⟨lots, []⟩ l).gains).filter
        (fun g => sellYearOf g.sell_date == some y) := by
  induction l with
  | nil => intro lots; rfl
  | cons e rest ih =>
    intro lots
    rw [List.foldl_cons, List.foldl_cons]
    by_cases h1 : e.tx_type = "buy" ∨ e.tx_type = "receive"
    · rw [processEntry_acq m (some y) _ e h1, processEntry_acq m none _ e h1]
      exact ih _
    · by_cases h2 : e.tx_type = "sell" ∨ e.tx_type = "send"
      · rw [processEntry_disp m (some y) _ e h1 h2, processEntry_disp m none _ e h1 h2]
        dsimp only
        simp only [include_record, if_true, List.nil_append]
        rw [foldl_gains_accum m (some y) rest, foldl_gains_accum m none rest, ih]
        rw [List.filter_append,
          filter_map_of_const (fun g => sellYearOf g.sell_date == some y)
            (chunkToGainLoss (e.price_usd.getD 0) e.date) (sellYearOf e.date == some y)
            (fun c => rfl) ((depleteLots e.amount_sat (sort_lots lots m)).1)]
      · rw [processEntry_other m (some y) _ e h1 h2, processEntry_other m none _ e h1 h2]
        exact ih _

/-- Claim C5: the tax-year filter only controls which DisposalRecords are
reported (those whose disposal-date year matches), never which lots are
consumed: the remaining-lot outputs of a filtered run equal those of the
unfiltered run on the same ledger. -/
theorem tax_year_filter_frame (method : CostBasisMethod) (txs : List LedgerEntry) (y : Int) :
    (calculate_cost_basis method (some y) txs).remaining_lots =
      (calculate_cost_basis method none txs).remaining_lots ∧
    (calculate_cost_basis method (some y) txs).remaining_balance_sat =
      (calculate_cost_basis method none txs).remaining_balance_sat ∧
    (calculate_cost_basis method (some y) txs).remaining_cost_basis_usd =
      (calculate_cost_basis method none txs).remaining_cost_basis_usd ∧
    (calculate_cost_basis method (some y) txs).gains =
      ((calculate_cost_basis method none txs).gains).filter
        (fun g => sellYearOf g.sell_date == some y) := by
  have hlots : (processLedger method (some y) txs).lots = (processLedger method none txs).lots :=
    foldl_lots_irrel method (some y) none txs [] [] []
  have hg : (processLedger method (some y) txs).gains =
      ((processLedger method none txs).gains).filter (fun g => sellYearOf g.sell_date == some y) :=
    foldl_gains_filter method y txs []
  refine ⟨?_, ?_, ?_, ?_⟩ <;>
    simp only [calculate_cost_basis, hlots, hg]

/-! ## Claim C7: overselling truncates silently -/

theorem lotsTotal_cons (l : Lot) (ls : List Lot) :
    lotsTotal (l :: ls) = l.amount_sat + lotsTotal ls := by
  simp [lotsTotal]

theorem lotsTotal_nonneg (lots : List Lot) (h : ∀ l ∈ lots, 0 < l.amount_sat) :
    0 ≤ lotsTotal lots := by
  induction lots with
  | nil => simp [lotsTotal]
  | cons l ls ih =>
    have h1 := h l (List.mem_cons_self l ls)
    have h2 := ih (fun x hx => h x (List.mem_cons_of_mem _ hx))
    rw [lotsTotal_cons]
    omega

theorem sort_lots_mem (lots : List Lot) (m : CostBasisMethod) (l : Lot) :
    l ∈ sort_lots lots m ↔ l ∈ lots := by
  cases m with
  | fifo => exact Iff.rfl
  | lifo => simp [sort_lots]
  | hifo => exact (List.mergeSort_perm lots _).mem_iff

/-- Depletion never leaves a non-positive lot behind when all lots start
positive. -/
theorem depleteLots_pos (lots : List Lot) : ∀ (r : Int),
    (∀ l ∈ lots, 0 < l.amount_sat) → ∀ l ∈ (depleteLots r lots).2, 0 < l.amount_sat := by
  induction lots with
  | nil => intro r _ l hl; simp [depleteLots] at hl
  | cons lot rest ih =>
    intro r h l hl
    by_cases hr : r ≤ 0
    · simp only [depleteLots, if_pos hr] at hl
      exact h l hl
    · by_cases h2 : lot.amount_sat - min r lot.amount_sat = 0
      · simp only [depleteLots, if_neg hr, if_pos h2] at hl
        exact ih _ (fun x hx => h x (List.mem_cons_of_mem _ hx)) l hl
      · simp only [depleteLots, if_neg hr, if_neg h2] at hl
        rcases List.mem_cons.mp hl with h3 | h3
        · have hmin : min r lot.amount_sat ≤ lot.amount_sat := min_le_right _ _
          rw [h3]
          dsimp only
          omega
        · exact h l (List.mem_cons_of_mem _ h3)

/-- Working lots stay positive along any run over positive-amount entries. -/
theorem processLedger_lots_pos (m : CostBasisMethod) (ty : Option Int) (l : List LedgerEntry) :
    ∀ st : CalcState, (∀ e ∈ l, 0 < e.amount_sat) → (∀ lot ∈ st.lots, 0 < lot.amount_sat) →
    ∀ lot ∈ (List.foldl (processEntry m ty) st l).lots, 0 < lot.amount_sat := by
  induction l with
  | nil => intro st _ hst lot hlot; exact hst lot hlot
  | cons e rest ih =>
    intro st he hst
    rw [List.foldl_cons]
    refine ih _ (fun x hx => he x (List.mem_cons_of_mem _ hx)) ?_
    by_cases h1 : e.tx_type = "buy" ∨ e.tx_type = "receive"
    · rw [processEntry_acq m ty st e h1]
      intro lot hlot
      rcases List.mem_append.mp hlot with h3 | h3
      · exact hst lot h3
      · have : lot.amount_sat = e.amount_sat := by
          rcases List.mem_singleton.mp h3 with h4
          rw [h4]
        rw [this]
        exact he e (List.mem_cons_self e rest)
    · by_cases h2 : e.tx_type = "sell" ∨ e.tx_type = "send"
      · rw [processEntry_disp m ty st e h1 h2]
        intro lot hlot
        exact depleteLots_pos (sort_lots st.lots m) e.amount_sat
          (fun x hx => hst x ((sort_lots_mem st.lots m x).mp hx)) lot hlot
      · rw [processEntry_other m ty st e h1 h2]
        exact hst

/-- When a disposal requests more than the lots hold, depletion empties the
lot set and the chunks account for exactly what was available. -/
theorem depleteLots_exhaust (lots : List Lot) : ∀ r : Int,
    (∀ l ∈ lots, 0 < l.amount_sat) → lotsTotal lots < r →
    (depleteLots r lots).2 = [] ∧ chunksTotal (depleteLots r lots).1 = lotsTotal lots := by
  induction lots with
  | nil => intro r _ _; simp [depleteLots, chunksTotal, lotsTotal]
  | cons lot rest ih =>
    intro r h hr
    have hpos : 0 < lot.amount_sat := h lot (List.mem_cons_self lot rest)
    have hrest : 0 ≤ lotsTotal rest :=
      lotsTotal_nonneg rest (fun x hx => h x (List.mem_cons_of_mem _ hx))
    rw [lotsTotal_cons] at hr
    have hlt : lot.amount_sat < r := by omega
    have hr0 : ¬ r ≤ 0 := by omega
    have hmin : min r lot.amount_sat = lot.amount_sat := min_eq_right (le_of_lt hlt)
    have h2 : lot.amount_sat - min r lot.amount_sat = 0 := by rw [hmin]; omega
    have hrec := ih (r - lot.amount_sat)
      (fun x hx => h x (List.mem_cons_of_mem _ hx)) (by omega)
    simp only [depleteLots, if_neg hr0, if_pos h2, chunksTotal, List.map_cons,
      List.sum_cons] at hrec ⊢
    rw [lotsTotal_cons, hmin]
    exact ⟨hrec.1, by omega⟩

/-- Claim C7: a sell/send that requests more satoshis than remain across all
open lots raises no error and creates no negative lot balance: the depletion
stops with the lot set exhausted, the event disposes exactly the satoshis
that were available (fewer than requested), and the full run still returns a
normal result with non-negative remaining lots and balance. -/
theorem oversell_truncates (method : CostBasisMethod) (l1 l2 : List LedgerEntry)
    (e : LedgerEntry)
    (hpos : ∀ x ∈ l1 ++ e :: l2, 0 < x.amount_sat)
    (hsell : e.tx_type = "sell" ∨ e.tx_type = "send")
    (hover : lotsTotal (processLedger method none l1).lots < e.amount_sat) :
    (processEntry method none (processLedger method none l1) e).lots = [] ∧
    disposedTotal (processEntry method none (processLedger method none l1) e).gains =
      disposedTotal (processLedger method none l1).gains +
        lotsTotal (processLedger method none l1).lots ∧
    (∀ lot ∈ (processLedger method none (l1 ++ e :: l2)).lots, 0 ≤ lot.amount_sat) ∧
    0 ≤ (calculate_cost_basis method none (l1 ++ e :: l2)).remaining_balance_sat := by
  have hb : ¬(e.tx_type = "buy" ∨ e.tx_type = "receive") := by
    rcases hsell with h | h <;> rw [h] <;> decide
  have hstpos : ∀ lot ∈ (processLedger method none l1).lots, 0 < lot.amount_sat := by
    refine processLedger_lots_pos method none l1 ⟨[], []⟩
      (fun x hx => hpos x (List.mem_append.mpr (Or.inl hx))) ?_
    intro lot hlot
    simp at hlot
  have hsorted : ∀ lot ∈ sort_lots (processLedger method none l1).lots method,
      0 < lot.amount_sat :=
    fun lot hl => hstpos lot ((sort_lots_mem _ method lot).mp hl)
  have hover2 : lotsTotal (sort_lots (processLedger method none l1).lots method) < e.amount_sat := by
    rw [lotsTotal_sort]
    exact hover
  have hex := depleteLots_exhaust (sort_lots (processLedger method none l1).lots method)
    e.amount_sat hsorted hover2
  have hall : ∀ lot ∈ (processLedger method none (l1 ++ e :: l2)).lots, 0 < lot.amount_sat := by
    refine processLedger_lots_pos method none (l1 ++ e :: l2) ⟨[], []⟩ hpos ?_
    intro lot hlot
    simp at hlot
  refine ⟨?_, ?_, fun lot hl => le_of_lt (hall lot hl), ?_⟩
  · rw [processEntry_disp method none _ e hb hsell]
    exact hex.1
  · rw [processEntry_disp method none _ e hb hsell]
    dsimp only
    rw [disposedTotal_append]
    simp only [include_record, if_true]
    rw [disposedTotal_chunks, hex.2, lotsTotal_sort]
  · have : 0 ≤ lotsTotal (processLedger method none (l1 ++ e :: l2)).lots :=
      lotsTotal_nonneg _ hall
    simpa [calculate_cost_basis, lotsTotal] using this

theorem oversell_truncates_witness :
    ((processEntry .fifo none (processLedger .fifo none
        [{ tx_type := "buy", amount_sat := 100, price_usd := some 10, date := "2024-01-01" }])
        { tx_type := "sell", amount_sat := 150, price_usd := some 20, date := "2024-06-01" }).lots = [] ∧
    disposedTotal (processEntry .fifo none (processLedger .fifo none
        [{ tx_type := "buy", amount_sat := 100, price_usd := some 10, date := "2024-01-01" }])
        { tx_type := "sell", amount_sat := 150, price_usd := some 20, date := "2024-06-01" }).gains =
      disposedTotal (processLedger .fifo none
        [{ tx_type := "buy", amount_sat := 100, price_usd := some 10, date := "2024-01-01" }]).gains +
        lotsTotal (processLedger .fifo none
        [{ tx_type := "buy", amount_sat := 100, price_usd := some 10, date := "2024-01-01" }]).lots ∧
    (∀ lot ∈ (processLedger .fifo none
        ([{ tx_type := "buy", amount_sat := 100, price_usd := some 10, date := "2024-01-01" }] ++
          { tx_type := "sell", amount_sat := 150, price_usd := some 20, date := "2024-06-01" } :: [])).lots,
      0 ≤ lot.amount_sat) ∧
    0 ≤ (calculate_cost_basis .fifo none
        ([{ tx_type := "buy", amount_sat := 100, price_usd := some 10, date := "2024-01-01" }] ++
          { tx_type := "sell", amount_sat := 150, price_usd := some 20, date := "2024-06-01" } :: [])).remaining_balance_sat) :=
  oversell_truncates .fifo
    [{ tx_type := "buy", amount_sat := 100, price_usd := some 10, date := "2024-01-01" }] []
    { tx_type := "sell", amount_sat := 150, price_usd := some 20, date := "2024-06-01" }
    (by decide) (Or.inl rfl) (by decide)

/-! ## Claim C9: CSV totals row arithmetic -/

theorem roundHalfAway_intCast (z : Int) : roundHalfAway (z : ℚ) = z := by
  unfold roundHalfAway
  by_cases h : (0 : ℚ) ≤ (z : ℚ)
  · rw [if_pos h]
    rw [Int.floor_int_add]
    norm_num
  · rw [if_neg h]
    have hz : -(z : ℚ) = ((-z : Int) : ℚ) := by push_cast; ring
    rw [hz, Int.floor_int_add]
    norm_num

/-- round2 fixes every multiple of one cent. -/
theorem round2_hundredth (z : Int) : round2 ((z : ℚ) / 100) = (z : ℚ) / 100 := by
  unfold round2
  have h : ((z : ℚ) / 100) * 100 = (z : ℚ) := by
    field_simp
  rw [h, roundHalfAway_intCast]

theorem sum_hundredths (l : List ℚ) (h : ∀ x ∈ l, ∃ z : Int, x = (z : ℚ) / 100) :
    ∃ z : Int, l.sum = (z : ℚ) / 100 := by
  induction l with
  | nil => exact ⟨0, by simp⟩
  | cons a rest ih =>
    obtain ⟨za, ha⟩ := h a (List.mem_cons_self a rest)
    obtain ⟨zr, hr⟩ := ih (fun x hx => h x (List.mem_cons_of_mem _ hx))
    refine ⟨za + zr, ?_⟩
    rw [List.sum_cons, ha, hr]
    push_cast
    ring

/-- Claim C9 (amended): in the Form 8949 CSV figures, the TOTALS proceeds and
cost-basis equal the sums of the corresponding per-row (already rounded)
values exactly; the TOTALS gain however is round2 of the sum of the
UNROUNDED per-chunk gains, which need not equal the sum of the per-row
rounded gains. -/
theorem form_8949_totals (year : Int) (method : CostBasisMethod) (txs : List LedgerEntry) :
    (generate_form_8949 year method txs).totals_proceeds =
      (((generate_form_8949 year method txs).rows).map (fun d => d.proceeds)).sum ∧
    (generate_form_8949 year method txs).totals_cost_basis =
      (((generate_form_8949 year method txs).rows).map (fun d => d.cost_basis)).sum ∧
    (generate_form_8949 year method txs).totals_gain =
      round2 ((calculate_cost_basis method (some year) txs).total_realized_gain_usd) := by
  refine ⟨?_, ?_, rfl⟩
  · show round2 ((((calculate_cost_basis method (some year) txs).gains.map toDisposition).map
        (fun d => d.proceeds)).sum) =
      (((calculate_cost_basis method (some year) txs).gains.map toDisposition).map
        (fun d => d.proceeds)).sum
    have hmem : ∀ x ∈ (((calculate_cost_basis method (some year) txs).gains.map
        toDisposition).map (fun d => d.proceeds)), ∃ z : Int, x = (z : ℚ) / 100 := by
      intro x hx
      obtain ⟨d, hd, rfl⟩ := List.mem_map.mp hx
      obtain ⟨g, hg, rfl⟩ := List.mem_map.mp hd
      exact ⟨roundHalfAway (g.proceeds_usd * 100), rfl⟩
    obtain ⟨z, hz⟩ := sum_hundredths _ hmem
    rw [hz, round2_hundredth]
  · show round2 ((((calculate_cost_basis method (some year) txs).gains.map toDisposition).map
        (fun d => d.cost_basis)).sum) =
      (((calculate_cost_basis method (some year) txs).gains.map toDisposition).map
        (fun d => d.cost_basis)).sum
    have hmem : ∀ x ∈ (((calculate_cost_basis method (some year) txs).gains.map
        toDisposition).map (fun d => d.cost_basis)), ∃ z : Int, x = (z : ℚ) / 100 := by
      intro x hx
      obtain ⟨d, hd, rfl⟩ := List.mem_map.mp hx
      obtain ⟨g, hg, rfl⟩ := List.mem_map.mp hd
      exact ⟨roundHalfAway (g.cost_basis_usd * 100), rfl⟩
    obtain ⟨z, hz⟩ := sum_hundredths _ hmem
    rw [hz, round2_hundredth]

/-- Ledger on which the TOTALS gain differs from the sum of the per-row
gains: two disposals each with an unrounded gain of 0.004 USD. -/
def csvLedger : List LedgerEntry :=
  [{ tx_type := "buy", amount_sat := 100000000, price_usd := some 100, date := "2024-01-05" },
   { tx_type := "sell", amount_sat := 100000000, price_usd := some (100 + 1/250), date := "2024-02-05" },
   { tx_type := "buy", amount_sat := 100000000, price_usd := some 100, date := "2024-03-05" },
   { tx_type := "sell", amount_sat := 100000000, price_usd := some (100 + 1/250), date := "2024-04-05" }]

/-- Claim C9 counterexample: on csvLedger (year 2024, FIFO) the TOTALS row
gain figure is 0.01 while the per-row gain figures are 0.00 and 0.00, so the
TOTALS gain does not equal the sum of the per-row gains even at two decimal
places. -/
theorem form_8949_totals_gain_cex :
    (generate_form_8949 2024 .fifo csvLedger).totals_gain ≠
      (((generate_form_8949 2024 .fifo csvLedger).rows).map (fun d => d.gain_or_loss)).sum := by
  have hrun : processLedger .fifo (some 2024) csvLedger =
      ⟨[], [chunkToGainLoss (100 + 1/250) "2024-02-05"
              (100000000, { amount_sat := 100000000, price_usd := 100, date := "2024-01-05" }),
            chunkToGainLoss (100 + 1/250) "2024-04-05"
              (100000000, { amount_sat := 100000000, price_usd := 100, date := "2024-03-05" })]⟩ := by
    rfl
  simp only [generate_form_8949, generate_tax_report, calculate_cost_basis, hrun, toDisposition,
    chunkToGainLoss, List.map_cons, List.map_nil, List.sum_cons, List.sum_nil]
  norm_num [round2, roundHalfAway]

/-! ## Invoice checker lemmas -/

theorem i64ToU64_of_nonneg (n : Int) (h0 : 0 ≤ n) (h1 : n < 2 ^ 63) :
    i64ToU64 n = n.toNat := by
  unfold i64ToU64
  rw [Int.emod_eq_of_lt h0 (by omega)]

theorem findPayment_cons (addr : String) (u : Nat) (tx : EsploraTx) (txs : List EsploraTx) :
    findPayment addr u (tx :: txs) =
      if u ≤ receivedBy addr tx then some tx else findPayment addr u txs := by
  unfold findPayment
  rw [List.find?_cons]
  by_cases h : u ≤ receivedBy addr tx
  · simp [h]
  · simp [h]

theorem findPayment_first (addr : String) (u : Nat) (tx : EsploraTx) :
    ∀ (pre suf : List EsploraTx), (∀ t ∈ pre, receivedBy addr t < u) →
    u ≤ receivedBy addr tx → findPayment addr u (pre ++ tx :: suf) = some tx := by
  intro pre
  induction pre with
  | nil =>
    intro suf _ h
    rw [List.nil_append, findPayment_cons, if_pos h]
  | cons p rest ih =>
    intro suf hpre h
    rw [List.cons_append, findPayment_cons,
      if_neg (not_le.mpr (hpre p (List.mem_cons_self p rest)))]
    exact ih suf (fun t ht => hpre t (List.mem_cons_of_mem _ ht)) h

theorem findPayment_some_iff (addr : String) (u : Nat) (txs : List EsploraTx) :
    (∃ tx, findPayment addr u txs = some tx) ↔ ∃ tx ∈ txs, u ≤ receivedBy addr tx := by
  unfold findPayment
  constructor
  · rintro ⟨tx, htx⟩
    have h1 := List.mem_of_find?_eq_some htx
    have h2 := List.find?_some htx
    exact ⟨tx, h1, by simpa using h2⟩
  · rintro ⟨tx, htx, h⟩
    have hsome : (List.find? (fun tx => decide (u ≤ receivedBy addr tx)) txs).isSome = true := by
      rw [List.find?_isSome]
      exact ⟨tx, htx, by simpa using h⟩
    obtain ⟨t, ht⟩ := Option.isSome_iff_exists.mp hsome
    exact ⟨t, ht⟩

/-! ## Claim C6: payment qualification and first-match-wins -/

/-- Claim C6: a transaction qualifies exactly when its own outputs to the
invoice address sum to at least expected_amount_sat, and the first
qualifying transaction in the order returned by the chain client is the one
accepted — its txid and received sum are what the conditional update
records; later or better matches are never considered. -/
theorem payment_detection_first_match (addr now : String) (amt : Int) (inv : InvoiceRow)
    (txs : List EsploraTx) (h0 : 0 ≤ amt) (h1 : amt < 2 ^ 63) :
    ((∃ r, check_invoice_payment addr amt inv (.ok txs) now = .ok (true, r)) ↔
      ∃ tx ∈ txs, amt.toNat ≤ receivedBy addr tx) ∧
    (∀ (pre suf : List EsploraTx) (tx : EsploraTx), txs = pre ++ tx :: suf →
      (∀ t ∈ pre, receivedBy addr t < amt.toNat) → amt.toNat ≤ receivedBy addr tx →
      check_invoice_payment addr amt inv (.ok txs) now =
        .ok (true, applyPaidUpdate inv now tx.txid (receivedBy addr tx))) := by
  have hcast : i64ToU64 amt = amt.toNat := i64ToU64_of_nonneg amt h0 h1
  constructor
  · constructor
    · rintro ⟨r, hr⟩
      simp only [check_invoice_payment, hcast] at hr
      cases hfind : findPayment addr amt.toNat txs with
      | none => rw [hfind] at hr; simp at hr
      | some tx =>
        exact (findPayment_some_iff addr amt.toNat txs).mp ⟨tx, hfind⟩
    · intro hex
      obtain ⟨tx, hfind⟩ := (findPayment_some_iff addr amt.toNat txs).mpr hex
      refine ⟨applyPaidUpdate inv now tx.txid (receivedBy addr tx), ?_⟩
      simp only [check_invoice_payment, hcast, hfind]
  · intro pre suf tx heq hpre h
    have hfind : findPayment addr amt.toNat txs = some tx := by
      rw [heq]
      exact findPayment_first addr amt.toNat tx pre suf hpre h
    simp only [check_invoice_payment, hcast, hfind]

def invSent : InvoiceRow :=
  { id := "inv1", status := "sent", reusable := false, btc_address := "addr1", amount_sat := 100,
    paid_at := none, paid_txid := none, paid_amount_sat := none, updated_at := "t0" }

def txSmall : EsploraTx :=
  { txid := "txs1", status := { confirmed := true, block_time := some 1 },
    vout := [{ scriptpubkey_address := some "addr1", value := 50 }] }

def txMid : EsploraTx :=
  { txid := "txm1", status := { confirmed := true, block_time := some 2 },
    vout := [{ scriptpubkey_address := some "addr1", value := 150 }] }

def txBig : EsploraTx :=
  { txid := "txb1", status := { confirmed := true, block_time := some 3 },
    vout := [{ scriptpubkey_address := some "addr1", value := 200 }] }

theorem payment_detection_first_match_witness :
    check_invoice_payment "addr1" 100 invSent (.ok [txSmall, txMid, txBig]) "now" =
      .ok (true, applyPaidUpdate invSent "now" txMid.txid (receivedBy "addr1" txMid)) :=
  (payment_detection_first_match "addr1" "now" 100 invSent [txSmall, txMid, txBig]
    (by decide) (by decide)).2 [txSmall] [txBig] txMid rfl (by decide) (by decide)

/-! ## Claim C4: idempotence for a repeated identical chain response -/

/-- Claim C4: for a non-reusable invoice that is not yet paid, the first
call with a qualifying chain response writes status = paid together with
paid_at, paid_txid and paid_amount_sat; a second call with the same chain
response still reports detection but writes nothing — the stored paid_at,
paid_txid, paid_amount_sat are unchanged, because the UPDATE is conditioned
on status != 'paid'. -/
theorem check_idempotent (addr now1 now2 : String) (amt : Int) (inv : InvoiceRow)
    (txs : List EsploraTx) (tx : EsploraTx)
    (hreuse : inv.reusable = false) (hst : inv.status ≠ "paid")
    (hfind : findPayment addr (i64ToU64 amt) txs = some tx) :
    ∃ inv1, check_invoice_payment addr amt inv (.ok txs) now1 = .ok (true, inv1) ∧
      inv1.status = "paid" ∧ inv1.paid_at = some now1 ∧ inv1.paid_txid = some tx.txid ∧
      inv1.paid_amount_sat = some (u64ToI64 (receivedBy addr tx)) ∧
      check_invoice_payment addr amt inv1 (.ok txs) now2 = .ok (true, inv1) := by
  refine ⟨applyPaidUpdate inv now1 tx.txid (receivedBy addr tx), ?_, ?_, ?_, ?_, ?_, ?_⟩
  · simp only [check_invoice_payment, hfind]
  · simp [applyPaidUpdate, hst]
  · simp [applyPaidUpdate, hst]
  · simp [applyPaidUpdate, hst]
  · simp [applyPaidUpdate, hst]
  · have hpaid : (applyPaidUpdate inv now1 tx.txid (receivedBy addr tx)).status = "paid" := by
      simp [applyPaidUpdate, hst]
    have hfix : ∀ (inv2 : InvoiceRow) (nw txi : String) (r : Nat), inv2.status = "paid" →
        applyPaidUpdate inv2 nw txi r = inv2 := by
      intro inv2 nw txi r h
      unfold applyPaidUpdate
      rw [if_neg (by simp [h])]
    simp only [check_invoice_payment, hfind]
    rw [hfix _ _ _ _ hpaid]

theorem check_idempotent_witness :
    ∃ inv1, check_invoice_payment "addr1" 100 invSent (.ok [txMid]) "now1" = .ok (true, inv1) ∧
      inv1.status = "paid" ∧ inv1.paid_at = some "now1" ∧ inv1.paid_txid = some txMid.txid ∧
      inv1.paid_amount_sat = some (u64ToI64 (receivedBy "addr1" txMid)) ∧
      check_invoice_payment "addr1" 100 inv1 (.ok [txMid]) "now2" = .ok (true, inv1) :=
  check_idempotent "addr1" "now1" "now2" 100 invSent [txMid] txMid rfl (by decide) (by decide)

/-! ## Claim C3: reusable invoice across two distinct payments -/

/-- The conditional UPDATE is a no-op on a row whose status is already
'paid'. -/
theorem applyPaidUpdate_of_paid (inv : InvoiceRow) (now txid : String) (r : Nat)
    (h : inv.status = "paid") : applyPaidUpdate inv now txid r = inv := by
  unfold applyPaidUpdate
  rw [if_neg (by simp [h])]

/-- Claim C3 (amended): for a reusable invoice, two distinct qualifying
transactions observed across two successive calls each make
check_invoice_payment report detection (return true), and the first call
records the first transaction's txid and received sum; but because the
UPDATE is guarded by status != 'paid', the second call leaves the stored
row — paid_txid and paid_amount_sat included — exactly as the first call
wrote it, instead of updating it to the most recent match. -/
theorem reusable_repeat_keeps_first (addr now1 now2 : String) (amt : Int) (inv : InvoiceRow)
    (txs1 txs2 : List EsploraTx) (t1 t2 : EsploraTx)
    (hreuse : inv.reusable = true) (hst : inv.status ≠ "paid")
    (h1 : findPayment addr (i64ToU64 amt) txs1 = some t1)
    (h2 : findPayment addr (i64ToU64 amt) txs2 = some t2) :
    ∃ inv1, check_invoice_payment addr amt inv (.ok txs1) now1 = .ok (true, inv1) ∧
      inv1.status = "paid" ∧ inv1.paid_txid = some t1.txid ∧
      inv1.paid_amount_sat = some (u64ToI64 (receivedBy addr t1)) ∧
      check_invoice_payment addr amt inv1 (.ok txs2) now2 = .ok (true, inv1) := by
  refine ⟨applyPaidUpdate inv now1 t1.txid (receivedBy addr t1), ?_, ?_, ?_, ?_, ?_⟩
  · simp only [check_invoice_payment, h1]
  · simp [applyPaidUpdate, hst]
  · simp [applyPaidUpdate, hst]
  · simp [applyPaidUpdate, hst]
  · have hpaid : (applyPaidUpdate inv now1 t1.txid (receivedBy addr t1)).status = "paid" := by
      simp [applyPaidUpdate, hst]
    simp only [check_invoice_payment, h2]
    rw [applyPaidUpdate_of_paid _ _ _ _ hpaid]

def invReusable : InvoiceRow :=
  { id := "inv2", status := "sent", reusable := true, btc_address := "addr1", amount_sat := 100,
    paid_at := none, paid_txid := none, paid_amount_sat := none, updated_at := "t0" }

def txFirstPay : EsploraTx :=
  { txid := "txa", status := { confirmed := true, block_time := some 10 },
    vout := [{ scriptpubkey_address := some "addr1", value := 100 }] }

def txSecondPay : EsploraTx :=
  { txid := "txb", status := { confirmed := true, block_time := some 20 },
    vout := [{ scriptpubkey_address := some "addr1", value := 120 }] }

def invPaidFirst : InvoiceRow :=
  { id := "inv2", status := "paid", reusable := true, btc_address := "addr1", amount_sat := 100,
    paid_at := some "now1", paid_txid := some "txa", paid_amount_sat := some 100,
    updated_at := "now1" }

theorem reusable_repeat_keeps_first_witness :
    ∃ inv1, check_invoice_payment "addr1" 100 invReusable (.ok [txFirstPay]) "now1" =
        .ok (true, inv1) ∧
      inv1.status = "paid" ∧ inv1.paid_txid = some txFirstPay.txid ∧
      inv1.paid_amount_sat = some (u64ToI64 (receivedBy "addr1" txFirstPay)) ∧
      check_invoice_payment "addr1" 100 inv1 (.ok [txSecondPay]) "now2" = .ok (true, inv1) :=
  reusable_repeat_keeps_first "addr1" "now1" "now2" 100 invReusable
    [txFirstPay] [txSecondPay] txFirstPay txSecondPay rfl (by decide) (by decide) (by decide)

/-- Claim C3 counterexample: with the reusable invoice invReusable, the
qualifying transaction txa is observed on the first call and the distinct
qualifying transaction txb (120 sats) on the second; both calls return true,
but after the second call the stored paid_txid is still "txa" and
paid_amount_sat is still 100 — not the most recent match ("txb", 120). -/
theorem reusable_second_payment_cex :
    check_invoice_payment "addr1" 100 invReusable (.ok [txFirstPay]) "now1" =
      .ok (true, invPaidFirst) ∧
    check_invoice_payment "addr1" 100 invPaidFirst (.ok [txSecondPay]) "now2" =
      .ok (true, invPaidFirst) ∧
    invPaidFirst.paid_txid ≠ some txSecondPay.txid ∧
    invPaidFirst.paid_amount_sat ≠ some (u64ToI64 (receivedBy "addr1" txSecondPay)) :=
  ⟨rfl, rfl, by decide, by decide⟩

/-! ## Claim C8: paid non-reusable invoices are skipped -/

/-- Claim C8: asked to check payment for an invoice whose status is paid and
whose reusable flag is false, the check-payment path returns immediately:
the chain is never queried (check_invoice_payment is not invoked), no
payment is detected, and the stored invoice row is unchanged. -/
theorem paid_nonreusable_skips (inv : InvoiceRow) (resp : EsploraResponse) (now : String)
    (hp : inv.status = "paid") (hr : inv.reusable = false) :
    check_payment inv resp now =
      .ok { invoice := inv, chainQueried := false, detected := false } := by
  unfold check_payment
  rw [if_pos ⟨hp, hr⟩]

def invPaidNR : InvoiceRow :=
  { id := "inv3", status := "paid", reusable := false, btc_address := "addr1", amount_sat := 100,
    paid_at := some "now1", paid_txid := some "txa", paid_amount_sat := some 100,
    updated_at := "now1" }

theorem paid_nonreusable_skips_witness :
    check_payment invPaidNR (.ok [txSecondPay]) "now3" =
      .ok { invoice := invPaidNR, chainQueried := false, detected := false } :=
  paid_nonreusable_skips invPaidNR (.ok [txSecondPay]) "now3" rfl rfl

/-! ## Claim C10: the confirmed field is never consulted -/

theorem findPayment_status_irrel (addr : String) (u : Nat) (f : EsploraTx → EsploraTxStatus) :
    ∀ txs : List EsploraTx,
    findPayment addr u (txs.map (fun tx => { tx with status := f tx })) =
      (findPayment addr u txs).map (fun tx => { tx with status := f tx }) := by
  intro txs
  induction txs with
  | nil => rfl
  | cons t rest ih =>
    dsimp only [List.map_cons]
    rw [findPayment_cons, findPayment_cons]
    by_cases h : u ≤ receivedBy addr t
    · rw [if_pos (show u ≤ receivedBy addr { t with status := f t } from h), if_pos h]
      rfl
    · rw [if_neg (show ¬u ≤ receivedBy addr { t with status := f t } from h), if_neg h]
      exact ih

/-- Claim C10: the parsed confirmed field of the chain response is never
consulted: replacing every transaction's status (confirmed flag and block
time) by anything whatsoever leaves check_invoice_payment's outcome —
detection flag and stored invoice row alike — unchanged; in particular an
unconfirmed qualifying transaction marks the invoice paid exactly as a
confirmed one would. -/
theorem confirmed_flag_ignored (addr now : String) (amt : Int) (inv : InvoiceRow)
    (txs : List EsploraTx) (f : EsploraTx → EsploraTxStatus) :
    check_invoice_payment addr amt inv
        (.ok (txs.map (fun tx => { tx with status := f tx }))) now =
      check_invoice_payment addr amt inv (.ok txs) now := by
  simp only [check_invoice_payment]
  rw [findPayment_status_irrel]
  cases hfind : findPayment addr (i64ToU64 amt) txs with
  | none => rfl
  | some t => rfl
